import Mathlib

/-!
Serial transport core: configuration store, port resolver, opener, normalizer.

A shallow embedding of `backend/services/serial.go` and `backend/types/types.go`.

Conventions of the embedding:

* Go `string` values are modelled by Lean `String` (a sequence of Unicode code
  points, i.e. valid UTF-8); Go's `len(s)` is the UTF-8 byte length
  `String.utf8ByteSize`.  Every string reaching the service comes either from the
  JSON decoder or from `fmt.Sprintf`, both of which produce valid UTF-8.
* Go `int` values are modelled by `Int`; the code performs no arithmetic on them,
  only comparisons and copies, so no wrap-around can occur.
* The process-wide `currentConfig` variable is threaded explicitly: an operation
  that mutates it takes the stored value and returns the new stored value.
* The serial library (`go.bug.st/serial`) and the environment are a record of
  functions (`Driver`); every call into it is recorded in an event trace.
-/

set_option autoImplicit false

namespace Backend

/-! ## types.go -/

/-- Go struct `types.SerialConfig`. -/
structure SerialConfig where
  PortName : String
  BaudRate : Int
  DataBits : Int
  Parity : String
  StopBits : Int
  FlowControl : String
  deriving DecidableEq, Repr

/-- Go struct `types.SerialResult`; `SerialReply` holds the raw bytes read back. -/
structure SerialResult where
  Result : String
  Length : Int
  SerialPort : String
  SerialWritten : Int
  SerialReply : List UInt8
  deriving DecidableEq, Repr

/-! ## Configuration store (serial.go, lines 15-73) -/

/-- The package variable `currentConfig` with its initial value. -/
def currentConfig : SerialConfig :=
  { PortName := "COM1"
    BaudRate := 9600
    DataBits := 8
    Parity := "none"
    StopBits := 1
    FlowControl := "none" }

/-- The three errors `UpdateConfig` can return, each carrying the offending value
(`"invalid baud rate: %d"`, `"invalid data bits: %d (must be 5-8)"`,
`"invalid stop bits: %d (must be 1 or 2)"`). -/
inductive ConfigError where
  | invalidBaudRate (v : Int)
  | invalidDataBits (v : Int)
  | invalidStopBits (v : Int)
  deriving DecidableEq, Repr

/-- Function `GetConfig`: a copy of the stored configuration. -/
def GetConfig (store : SerialConfig) : SerialConfig := store

/-- Function `UpdateConfig cfg` run on the stored configuration `store`: the returned error
(`none` is Go's `nil`) and the stored configuration after the call. -/
def UpdateConfig (store cfg : SerialConfig) : Option ConfigError × SerialConfig :=
  if cfg.BaudRate ≤ 0 then
    (some (.invalidBaudRate cfg.BaudRate), store)
  else if cfg.DataBits < 5 ∨ cfg.DataBits > 8 then
    (some (.invalidDataBits cfg.DataBits), store)
  else if cfg.StopBits ≠ 1 ∧ cfg.StopBits ≠ 2 then
    (some (.invalidStopBits cfg.StopBits), store)
  else
    let s := store
    let s := if cfg.PortName ≠ "" then { s with PortName := cfg.PortName } else s
    let s := if cfg.BaudRate > 0 then { s with BaudRate := cfg.BaudRate } else s
    let s := if cfg.DataBits > 0 then { s with DataBits := cfg.DataBits } else s
    let s := if cfg.Parity ≠ "" then { s with Parity := cfg.Parity } else s
    let s := if cfg.StopBits > 0 then { s with StopBits := cfg.StopBits } else s
    let s := if cfg.FlowControl ≠ "" then { s with FlowControl := cfg.FlowControl } else s
    (none, s)

/-- The stored configuration after a sequence of `UpdateConfig` calls, whatever
each call returned. -/
def runUpdates (store : SerialConfig) (updates : List SerialConfig) : SerialConfig :=
  updates.foldl (fun s cfg => (UpdateConfig s cfg).2) store

/-- The line-parameter invariant of the data model. -/
def ValidConfig (s : SerialConfig) : Prop :=
  0 < s.BaudRate ∧ (5 ≤ s.DataBits ∧ s.DataBits ≤ 8) ∧ (s.StopBits = 1 ∨ s.StopBits = 2)

/-- An update that carries a port name and nothing else: the value the JSON decoder
produces for the body `{"port_name": ...}`. -/
def portNameOnly (name : String) : SerialConfig :=
  { PortName := name, BaudRate := 0, DataBits := 0, Parity := "", StopBits := 0,
    FlowControl := "" }

/-- An update that leaves parity and flow control out. -/
def sampleUpdate : SerialConfig :=
  { PortName := "COM4", BaudRate := 19200, DataBits := 7, Parity := "", StopBits := 2,
    FlowControl := "" }

/-! ## Port resolver (serial.go, lines 136-162) -/

/-- The inner loop of `buildPortList`: scan `tryPorts` for `p`, stopping at the
first hit. -/
def foundIn (p : String) : List String → Bool
  | [] => false
  | t :: ts => if t = p then true else foundIn p ts

/-- Function `buildPortList primary available`. -/
def buildPortList (primary : String) (available : List String) : List String :=
  let tryPorts := [primary]
  let tryPorts := if primary ≠ "COM1" then tryPorts ++ ["COM1"] else tryPorts
  let tryPorts := if primary ≠ "COM2" then tryPorts ++ ["COM2"] else tryPorts
  available.foldl
    (fun tryPorts p => if foundIn p tryPorts then tryPorts else tryPorts ++ [p])
    tryPorts

/-- Reference, step 4 of the resolver algorithm as the specification words it:
append every entry of `enumerated` not already present, in `enumerated`'s order. -/
def appendAbsent (acc : List String) : List String → List String
  | [] => acc
  | x :: xs => if x ∈ acc then appendAbsent acc xs else appendAbsent (acc ++ [x]) xs

/-- Reference list of the resolver, following the specification's words: the
preferred port, then "COM1" unless the preferred port is "COM1", then "COM2"
unless it is "COM2", then the enumerated entries not already present. -/
def resolveSpec (preferredPort : String) (enumerated : List String) : List String :=
  appendAbsent
    ([preferredPort]
      ++ (if preferredPort = "COM1" then [] else ["COM1"])
      ++ (if preferredPort = "COM2" then [] else ["COM2"]))
    enumerated

/-! ## The Go standard library functions used by the normalizer

`unicode.IsSpace`, `strings.ReplaceAll`, `strings.Split`, `strings.TrimSpace` and
`strings.Join`, modelled after their documented behaviour on valid UTF-8. -/

/-- Library `unicode.IsSpace`: the Unicode White_Space property. -/
def isSpace (c : Char) : Bool :=
  let n := c.toNat
  decide ((0x09 ≤ n ∧ n ≤ 0x0D) ∨ n = 0x20 ∨ n = 0x85 ∨ n = 0xA0 ∨ n = 0x1680
    ∨ (0x2000 ≤ n ∧ n ≤ 0x200A) ∨ n = 0x2028 ∨ n = 0x2029 ∨ n = 0x202F ∨ n = 0x205F
    ∨ n = 0x3000)

/-- Left-to-right scan of `strings.ReplaceAll` for a non-empty `old`: at a position
where `old` starts, emit `new` and skip the rest of the match (`skip` counts the
characters of the current match still to be passed over); elsewhere copy the
character. -/
def replaceFrom (old new : List Char) : Nat → List Char → List Char
  | _, [] => []
  | skip + 1, _ :: cs => replaceFrom old new skip cs
  | 0, c :: cs =>
    if old.isPrefixOf (c :: cs) then new ++ replaceFrom old new (old.length - 1) cs
    else c :: replaceFrom old new 0 cs

/-- Library `strings.ReplaceAll s old new`: every non-overlapping instance of `old` replaced
by `new`; an empty `old` matches before every character and at the end. -/
def ReplaceAll (s old new : String) : String :=
  if old.data = [] then ⟨new.data ++ s.data.flatMap (fun c => c :: new.data)⟩
  else ⟨replaceFrom old.data new.data 0 s.data⟩

/-- The segments of a character sequence around each occurrence of `sep`. -/
def splitChars (sep : Char) : List Char → List (List Char)
  | [] => [[]]
  | c :: cs =>
    if c = sep then [] :: splitChars sep cs
    else
      match splitChars sep cs with
      | [] => [[c]]
      | seg :: segs => (c :: seg) :: segs

/-- Library `strings.Split s sep` for a one-character separator: the substrings between the
separators; a string without separator (the empty string too) gives one segment. -/
def Split (s : String) (sep : Char) : List String :=
  (splitChars sep s.data).map String.mk

/-- Library `strings.TrimSpace`: the string without leading and trailing white space. -/
def TrimSpace (s : String) : String :=
  ⟨((s.data.dropWhile isSpace).reverse.dropWhile isSpace).reverse⟩

/-- Concatenation of the elements with `sep` between neighbours. -/
def joinChars (sep : List Char) : List (List Char) → List Char
  | [] => []
  | [l] => l
  | l :: l2 :: ls => l ++ sep ++ joinChars sep (l2 :: ls)

/-- Library `strings.Join elems sep`. -/
def Join (elems : List String) (sep : String) : String :=
  ⟨joinChars sep.data (elems.map String.data)⟩

/-! ## Line normalizer (serial.go, lines 210-225) -/

/-- Function `normalizeLineEndings program`. -/
def normalizeLineEndings (program : String) : String :=
  let program := ReplaceAll program "\r\n" "\n"
  let program := ReplaceAll program "\r" "\n"
  let lines := Split program '\n'
  let nonEmptyLines := lines.filter (fun line => decide (TrimSpace line ≠ ""))
  Join nonEmptyLines "\r"

/-- The lines `normalizeLineEndings` keeps: the non-blank lines of the program after
both replacements. -/
def survivingLines (program : String) : List String :=
  (Split (ReplaceAll (ReplaceAll program "\r\n" "\n") "\r" "\n") '\n').filter
    (fun line => decide (TrimSpace line ≠ ""))

/-- A string is blank when it is empty or consists of white space only, that is,
when `strings.TrimSpace` leaves nothing of it. -/
def Blank (s : String) : Prop := TrimSpace s = ""

instance (s : String) : Decidable (Blank s) := by unfold Blank; infer_instance

/-- The output property as the specification words it: split on the carriage
return, no segment is blank. -/
def NoBlankSegment (out : String) : Prop := ∀ seg ∈ Split out '\r', ¬ Blank seg

instance (out : String) : Decidable (NoBlankSegment out) := by
  unfold NoBlankSegment; infer_instance

/-- The lines of an output: its segments between carriage returns, the empty output
holding no line. -/
def outputLines (out : String) : List String :=
  if out = "" then [] else Split out '\r'

/-! ## The serial library and the calls made into it -/

/-- Library `serial.Parity` of the library (the values the code uses). -/
inductive Parity where
  | NoParity
  | OddParity
  | EvenParity
  deriving DecidableEq, Repr

/-- Library `serial.StopBits` of the library (the values the code uses). -/
inductive StopBits where
  | OneStopBit
  | TwoStopBits
  deriving DecidableEq, Repr

/-- Library `serial.Mode`. -/
structure Mode where
  BaudRate : Int
  DataBits : Int
  Parity : Parity
  StopBits : StopBits
  deriving DecidableEq, Repr

/-- An opened port handle (`serial.Port`), identified by a number. -/
structure Port where
  id : Nat
  deriving DecidableEq, Repr

/-- The host side of one send operation: the serial library's primitives and the
value of the environment variable `SERIAL_PORT`.  An error is its message.
`Write` gives the count written and the error (`none` is `nil`); `Read` gives the
count read and the buffer contents (the error of `Read` is discarded by the code). -/
structure Driver where
  GetPortsList : Except String (List String)
  Getenv : String
  Open : String → Mode → Except String Port
  Write : Port → List UInt8 → Int × Option String
  Read : Port → Nat → Int × List UInt8

/-- One call into the serial library that touches a port. -/
inductive Event where
  | openAttempt (name : String) (mode : Mode)
  | write (port : Port) (bytes : List UInt8)
  | setReadTimeout (port : Port) (millis : Nat)
  | read (port : Port) (size : Nat)
  | close (port : Port)
  deriving DecidableEq, Repr

/-- Is the event a `Close` call. -/
def Event.isClose : Event → Bool
  | .close _ => true
  | _ => false

/-- Is the event a `Write` call. -/
def Event.isWrite : Event → Bool
  | .write _ _ => true
  | _ => false

/-- The port names of the `Open` calls of a trace, in order. -/
def attempted : List Event → List String
  | [] => []
  | .openAttempt name _ :: evs => name :: attempted evs
  | _ :: evs => attempted evs

/-! ## Connection opener (serial.go, lines 164-207) -/

/-- Function `parseParity`. -/
def parseParity (p : String) : Parity :=
  if p = "even" then .EvenParity
  else if p = "odd" then .OddParity
  else .NoParity

/-- Function `parseStopBits`. -/
def parseStopBits (sb : Int) : StopBits :=
  if sb = 2 then .TwoStopBits else .OneStopBit

/-- The error of `openAvailablePort`: `"no port available: %w"` around `lastErr`,
which is `nil` (`none`) when no `Open` call failed. -/
inductive OpenError where
  | noPortAvailable (lastErr : Option String)
  deriving DecidableEq, Repr

/-- The loop of `openAvailablePort` over the remaining candidates, `lastErr` being
the loop variable: the outcome and the `Open` calls made. -/
def openLoop (d : Driver) (mode : Mode) :
    List String → Option String → Except OpenError (Port × String) × List Event
  | [], lastErr => (.error (.noPortAvailable lastErr), [])
  | pName :: rest, _ =>
    match d.Open pName mode with
    | .ok port => (.ok (port, pName), [.openAttempt pName mode])
    | .error err =>
      let r := openLoop d mode rest (some err)
      (r.1, .openAttempt pName mode :: r.2)

/-- Function `openAvailablePort tryPorts cfg`: the opened port with its name, or the error,
and the `Open` calls made. -/
def openAvailablePort (d : Driver) (tryPorts : List String) (cfg : SerialConfig) :
    Except OpenError (Port × String) × List Event :=
  let mode : Mode :=
    { BaudRate := cfg.BaudRate
      DataBits := cfg.DataBits
      Parity := parseParity cfg.Parity
      StopBits := parseStopBits cfg.StopBits }
  openLoop d mode tryPorts none

/-- The underlying failure of opening `name`, if opening it fails. -/
def openFailure (d : Driver) (mode : Mode) (name : String) : Option String :=
  match d.Open name mode with
  | .ok _ => none
  | .error err => some err

/-- The mode `openAvailablePort` derives from a configuration. -/
def modeOf (cfg : SerialConfig) : Mode :=
  { BaudRate := cfg.BaudRate
    DataBits := cfg.DataBits
    Parity := parseParity cfg.Parity
    StopBits := parseStopBits cfg.StopBits }

/-- The all-fail clause as the specification words it: the returned error wraps the
open failure of the last candidate of the list. -/
def WrapsLastFailure (d : Driver) (tryPorts : List String) (cfg : SerialConfig) : Prop :=
  ∃ err, tryPorts.getLast?.bind (openFailure d (modeOf cfg)) = some err
    ∧ (openAvailablePort d tryPorts cfg).1 = .error (.noPortAvailable (some err))

/-! ## Transport session (serial.go, lines 76-134) -/

/-- The errors of `SendToSerial`: `"failed to open any serial port: %w"` and
`"failed to write to serial port: %w"`. -/
inductive SendError where
  | failedToOpen (err : OpenError)
  | failedToWrite (err : String)
  deriving DecidableEq, Repr

/-- Go's `[]byte(s)`: the UTF-8 encoding of a string. -/
def utf8Bytes (s : String) : List UInt8 :=
  s.data.flatMap String.utf8EncodeChar

/-- The candidate list `SendToSerial` builds: the enumerated ports (none when the
enumeration fails), the stored port name unless `SERIAL_PORT` is set and non-empty. -/
def candidates (d : Driver) (store : SerialConfig) : List String :=
  let ports := match d.GetPortsList with
    | .ok ps => ps
    | .error _ => []
  let cfg := GetConfig store
  let portName := if d.Getenv = "" then cfg.PortName else d.Getenv
  buildPortList portName ports

/-- The part of `SendToSerial` that runs once a port is open, up to its `return`
(lines 105-133): the outcome and the calls made on the port. -/
def sendOnPort (d : Driver) (port : Port) (openedPort : String) (program : String) :
    Except SendError SerialResult × List Event :=
  let normalizedProgram := normalizeLineEndings program
  let programBytes := utf8Bytes (normalizedProgram ++ "\r")
  match d.Write port programBytes with
  | (_, some err) => (.error (.failedToWrite err), [.write port programBytes])
  | (n, none) =>
    let r := d.Read port 256
    let nr := r.1
    let resp := if nr > 0 then r.2.take nr.toNat else []
    (.ok
      { Result := "sent"
        Length := program.utf8ByteSize
        SerialPort := openedPort
        SerialWritten := n
        SerialReply := resp },
     [.write port programBytes, .setReadTimeout port 2000, .read port 256])

/-- Function `SendToSerial program` against the stored configuration `store`: the returned
result or error, and the trace of calls into the serial library.  The deferred
`port.Close()` runs after the rest of the function, whichever `return` ends it. -/
def SendToSerial (d : Driver) (store : SerialConfig) (program : String) :
    Except SendError SerialResult × List Event :=
  let cfg := GetConfig store
  let tryPorts := candidates d store
  match openAvailablePort d tryPorts cfg with
  | (.error err, opens) => (.error (.failedToOpen err), opens)
  | (.ok (port, openedPort), opens) =>
    let r := sendOnPort d port openedPort program
    (r.1, opens ++ r.2 ++ [.close port])

/-- A host on which only the port called `good` opens; every write is complete and
nothing is read back. -/
def demoDriver (good : String) : Driver :=
  { GetPortsList := .ok ["COM7"]
    Getenv := ""
    Open := fun name _ => if name = good then .ok ⟨1⟩ else .error ("cannot open " ++ name)
    Write := fun _ bytes => (bytes.length, none)
    Read := fun _ _ => (0, []) }

/-! ## Configuration store: theorems -/

/-- C4. An update with `baud_rate <= 0`, or `data_bits` outside [5,8], or `stop_bits`
outside {1,2} makes `UpdateConfig` return an error, and the stored configuration is
exactly what it was before the call. -/
theorem UpdateConfig_rejects_invalid (s c : SerialConfig)
    (h : c.BaudRate ≤ 0 ∨ (c.DataBits < 5 ∨ 8 < c.DataBits)
      ∨ (c.StopBits ≠ 1 ∧ c.StopBits ≠ 2)) :
    (∃ e, (UpdateConfig s c).1 = some e) ∧ (UpdateConfig s c).2 = s := by
  unfold UpdateConfig
  by_cases h1 : c.BaudRate ≤ 0
  · simp [h1]
  · by_cases h2 : c.DataBits < 5 ∨ c.DataBits > 8
    · simp [h1, h2]
    · by_cases h3 : c.StopBits ≠ 1 ∧ c.StopBits ≠ 2
      · simp [h1, h2, h3]
      · exfalso
        rcases h with h | h | h
        · exact h1 h
        · exact h2 h
        · exact h3 h

/-- Witness for C4: a zero baud rate against the default configuration. -/
theorem UpdateConfig_rejects_invalid_witness :
    (∃ e, (UpdateConfig currentConfig (portNameOnly "COM3")).1 = some e)
      ∧ (UpdateConfig currentConfig (portNameOnly "COM3")).2 = currentConfig :=
  UpdateConfig_rejects_invalid currentConfig (portNameOnly "COM3") (Or.inl (by decide))

/-- What an accepted call stores: the numeric fields of the update, and each text
field of the update unless it is empty. -/
theorem UpdateConfig_accepted (s c : SerialConfig) (h : (UpdateConfig s c).1 = none) :
    (0 < c.BaudRate ∧ (5 ≤ c.DataBits ∧ c.DataBits ≤ 8) ∧ (c.StopBits = 1 ∨ c.StopBits = 2))
    ∧ (UpdateConfig s c).2 =
      { PortName := if c.PortName ≠ "" then c.PortName else s.PortName
        BaudRate := c.BaudRate
        DataBits := c.DataBits
        Parity := if c.Parity ≠ "" then c.Parity else s.Parity
        StopBits := c.StopBits
        FlowControl := if c.FlowControl ≠ "" then c.FlowControl else s.FlowControl } := by
  unfold UpdateConfig at h ⊢
  by_cases h1 : c.BaudRate ≤ 0
  · simp [h1] at h
  · by_cases h2 : c.DataBits < 5 ∨ c.DataBits > 8
    · simp [h1, h2] at h
    · by_cases h3 : c.StopBits ≠ 1 ∧ c.StopBits ≠ 2
      · simp [h1, h2, h3] at h
      · have hb : 0 < c.BaudRate := by omega
        have hd : 0 < c.DataBits := by omega
        have hs : 0 < c.StopBits := by omega
        refine ⟨⟨hb, by omega, by omega⟩, ?_⟩
        rw [if_neg h1, if_neg h2, if_neg h3]
        simp only [gt_iff_lt, hb, hd, hs, if_true]
        by_cases p1 : c.PortName = "" <;> by_cases p2 : c.Parity = "" <;>
          by_cases p3 : c.FlowControl = "" <;> simp [p1, p2, p3]

/-- C5. After an accepted update `c` on the stored configuration `s`, every field of
the stored configuration is `c`'s value when that value is non-zero / non-empty and
`s`'s value otherwise. -/
theorem UpdateConfig_merges_nondefault (s c : SerialConfig)
    (h : (UpdateConfig s c).1 = none) :
    (UpdateConfig s c).2.PortName = (if c.PortName ≠ "" then c.PortName else s.PortName)
    ∧ (UpdateConfig s c).2.BaudRate = (if c.BaudRate ≠ 0 then c.BaudRate else s.BaudRate)
    ∧ (UpdateConfig s c).2.DataBits = (if c.DataBits ≠ 0 then c.DataBits else s.DataBits)
    ∧ (UpdateConfig s c).2.Parity = (if c.Parity ≠ "" then c.Parity else s.Parity)
    ∧ (UpdateConfig s c).2.StopBits = (if c.StopBits ≠ 0 then c.StopBits else s.StopBits)
    ∧ (UpdateConfig s c).2.FlowControl
        = (if c.FlowControl ≠ "" then c.FlowControl else s.FlowControl) := by
  obtain ⟨⟨hb, hd, hs⟩, heq⟩ := UpdateConfig_accepted s c h
  rw [heq]
  have hb0 : c.BaudRate ≠ 0 := by omega
  have hd0 : c.DataBits ≠ 0 := by omega
  have hs0 : c.StopBits ≠ 0 := by omega
  simp [hb0, hd0, hs0]

/-- Witness for C5: an accepted update without parity and flow control keeps the
stored parity and flow control and replaces the other four fields. -/
theorem UpdateConfig_merges_nondefault_witness :
    (UpdateConfig currentConfig sampleUpdate).1 = none
    ∧ ((UpdateConfig currentConfig sampleUpdate).2.PortName = "COM4"
      ∧ (UpdateConfig currentConfig sampleUpdate).2.BaudRate = 19200
      ∧ (UpdateConfig currentConfig sampleUpdate).2.DataBits = 7
      ∧ (UpdateConfig currentConfig sampleUpdate).2.Parity = "none"
      ∧ (UpdateConfig currentConfig sampleUpdate).2.StopBits = 2
      ∧ (UpdateConfig currentConfig sampleUpdate).2.FlowControl = "none") :=
  ⟨by decide, UpdateConfig_merges_nondefault currentConfig sampleUpdate (by decide)⟩

/-- C6 (the code at the failing input). An update that supplies only the port name
"COM3" is refused on the default configuration with "invalid baud rate: 0" and
nothing is stored; the same happens for every stored configuration and port name. -/
theorem UpdateConfig_portNameOnly_refused :
    UpdateConfig currentConfig (portNameOnly "COM3")
      = (some (ConfigError.invalidBaudRate 0), currentConfig)
    ∧ ∀ (s : SerialConfig) (name : String),
        UpdateConfig s (portNameOnly name) = (some (ConfigError.invalidBaudRate 0), s) := by
  refine ⟨by decide, ?_⟩
  intro s name
  simp [UpdateConfig, portNameOnly]

/-- One call of `UpdateConfig` keeps the invariant of the stored configuration. -/
theorem UpdateConfig_preserves_valid (s c : SerialConfig) (hs : ValidConfig s) :
    ValidConfig (UpdateConfig s c).2 := by
  cases hc : (UpdateConfig s c).1 with
  | none =>
    obtain ⟨hv, heq⟩ := UpdateConfig_accepted s c hc
    rw [heq]
    exact hv
  | some e =>
    have : (UpdateConfig s c).2 = s := by
      unfold UpdateConfig at hc ⊢
      by_cases h1 : c.BaudRate ≤ 0
      · simp [h1]
      · by_cases h2 : c.DataBits < 5 ∨ c.DataBits > 8
        · simp [h1, h2]
        · by_cases h3 : c.StopBits ≠ 1 ∧ c.StopBits ≠ 2
          · simp [h1, h2, h3]
          · simp [h1, h2, h3] at hc
    rw [this]
    exact hs

/-- The invariant survives any sequence of calls from a valid stored configuration. -/
theorem runUpdates_preserves_valid (updates : List SerialConfig) :
    ∀ s : SerialConfig, ValidConfig s → ValidConfig (runUpdates s updates) := by
  induction updates with
  | nil => intro s hs; exact hs
  | cons c cs ih =>
    intro s hs
    exact ih _ (UpdateConfig_preserves_valid s c hs)

/-- C7. Starting from the hardcoded default configuration, after every finite
sequence of `UpdateConfig` calls with arbitrary arguments the stored configuration
has `baud_rate > 0`, `data_bits` in [5,8] and `stop_bits` in {1,2}. -/
theorem currentConfig_always_valid (updates : List SerialConfig) :
    0 < (runUpdates currentConfig updates).BaudRate
    ∧ (5 ≤ (runUpdates currentConfig updates).DataBits
        ∧ (runUpdates currentConfig updates).DataBits ≤ 8)
    ∧ ((runUpdates currentConfig updates).StopBits = 1
        ∨ (runUpdates currentConfig updates).StopBits = 2) :=
  runUpdates_preserves_valid updates currentConfig (by unfold ValidConfig; decide)

/-! ## Port resolver: theorems -/

/-- The inner loop answers membership. -/
theorem foundIn_iff (p : String) (l : List String) : foundIn p l = true ↔ p ∈ l := by
  induction l with
  | nil => simp [foundIn]
  | cons t ts ih =>
    unfold foundIn
    by_cases h : t = p
    · simp [h]
    · have h2 : ¬ p = t := fun e => h e.symm
      simp [h, h2, ih]

/-- The outer loop of `buildPortList` computes `appendAbsent`. -/
theorem foldl_eq_appendAbsent (e : List String) :
    ∀ acc : List String,
      e.foldl (fun tryPorts p => if foundIn p tryPorts then tryPorts else tryPorts ++ [p]) acc
        = appendAbsent acc e := by
  induction e with
  | nil => intro acc; rfl
  | cons x xs ih =>
    intro acc
    simp only [List.foldl_cons, appendAbsent]
    by_cases h : x ∈ acc
    · rw [if_pos ((foundIn_iff x acc).2 h), if_pos h]
      exact ih acc
    · have hf : ¬ foundIn x acc = true := fun hf => h ((foundIn_iff x acc).1 hf)
      rw [if_neg hf, if_neg h]
      exact ih (acc ++ [x])

/-- The code and the reference build the same list. -/
theorem buildPortList_eq_resolveSpec (p : String) (e : List String) :
    buildPortList p e = resolveSpec p e := by
  unfold buildPortList resolveSpec
  simp only []
  rw [foldl_eq_appendAbsent]
  by_cases h1 : p = "COM1" <;> by_cases h2 : p = "COM2" <;> simp [h1, h2]

/-- Appending the absent entries keeps a duplicate-free list duplicate-free. -/
theorem appendAbsent_nodup (e : List String) :
    ∀ acc : List String, acc.Nodup → (appendAbsent acc e).Nodup := by
  induction e with
  | nil => intro acc h; exact h
  | cons x xs ih =>
    intro acc h
    unfold appendAbsent
    by_cases hx : x ∈ acc
    · rw [if_pos hx]; exact ih acc h
    · rw [if_neg hx]
      apply ih
      rw [List.nodup_append]
      refine ⟨h, List.nodup_singleton x, ?_⟩
      intro a ha hb
      rw [List.mem_singleton] at hb
      exact hx (hb ▸ ha)

/-- Appending the absent entries keeps the first element. -/
theorem appendAbsent_head (e : List String) :
    ∀ (a : String) (acc : List String),
      (appendAbsent (a :: acc) e).head? = some a := by
  induction e with
  | nil => intro a acc; rfl
  | cons x xs ih =>
    intro a acc
    unfold appendAbsent
    by_cases hx : x ∈ a :: acc
    · rw [if_pos hx]; exact ih a acc
    · rw [if_neg hx]; exact ih a (acc ++ [x])

/-- C2. For every preferred port `p` and enumerated list `e`, `buildPortList p e` is
the reference list: `p`, then "COM1" if `p` is not "COM1", then "COM2" if `p` is not
"COM2", then each entry of `e` not already in the list, in `e`'s order; the two
worked cases of the specification are included. -/
theorem buildPortList_refines_spec :
    (∀ (p : String) (e : List String), buildPortList p e = resolveSpec p e)
    ∧ buildPortList "COM3" ["COM3", "COM5"] = ["COM3", "COM1", "COM2", "COM5"]
    ∧ buildPortList "COM1" ["COM1", "COM2"] = ["COM1", "COM2"] :=
  ⟨buildPortList_eq_resolveSpec, by decide, by decide⟩

/-- C3. For every preferred port `p` (the empty string too) and every enumerated list
`e` (repeated names too), `buildPortList p e` has no duplicate entry and its first
element is `p`. -/
theorem buildPortList_nodup_head (p : String) (e : List String) :
    (buildPortList p e).Nodup ∧ (buildPortList p e).head? = some p := by
  rw [buildPortList_eq_resolveSpec]
  unfold resolveSpec
  constructor
  · apply appendAbsent_nodup
    by_cases h1 : p = "COM1" <;> by_cases h2 : p = "COM2" <;> simp [h1, h2]
  · by_cases h1 : p = "COM1" <;> by_cases h2 : p = "COM2" <;>
      simp only [h1, h2, if_true, if_false, List.append_nil, List.singleton_append,
        List.cons_append, List.nil_append] <;> exact appendAbsent_head e _ _

/-! ## Connection opener: theorems -/

/-- When every remaining candidate fails to open, the loop ends with the failure of
the last of them (or with the incoming `lastErr` when none remains), after one
`Open` call per candidate. -/
theorem openLoop_all_fail (d : Driver) (mode : Mode) (l : List String) :
    ∀ lastErr : Option String, (∀ n ∈ l, openFailure d mode n ≠ none) →
      openLoop d mode l lastErr
        = (.error (.noPortAvailable
            (match l.getLast? with
              | none => lastErr
              | some n => openFailure d mode n)),
           l.map (fun n => Event.openAttempt n mode)) := by
  induction l with
  | nil => intro lastErr _; rfl
  | cons n rest ih =>
    intro lastErr hfail
    have hn := hfail n (List.mem_cons_self n rest)
    have hrest : ∀ m ∈ rest, openFailure d mode m ≠ none :=
      fun m hm => hfail m (List.mem_cons_of_mem n hm)
    unfold openFailure at hn
    cases hopen : d.Open n mode with
    | ok port => rw [hopen] at hn; exact absurd rfl hn
    | error err =>
      unfold openLoop
      rw [hopen]
      simp only []
      rw [ih (some err) hrest]
      cases rest with
      | nil => simp [openFailure, hopen]
      | cons m rest2 =>
        rw [List.getLast?_cons_cons]
        cases hg : (m :: rest2).getLast? with
        | none => exact absurd (List.getLast?_eq_none_iff.1 hg) (List.cons_ne_nil m rest2)
        | some x => simp

/-- When the candidates before `name` fail and `name` opens, the loop returns `name`
with its handle after trying exactly the candidates up to `name`. -/
theorem openLoop_first_success (d : Driver) (mode : Mode) (name : String) (port : Port)
    (post : List String) (hopen : d.Open name mode = .ok port) (pre : List String) :
    ∀ lastErr : Option String, (∀ n ∈ pre, openFailure d mode n ≠ none) →
      openLoop d mode (pre ++ name :: post) lastErr
        = (.ok (port, name), (pre ++ [name]).map (fun n => Event.openAttempt n mode)) := by
  induction pre with
  | nil =>
    intro lastErr _
    simp only [List.nil_append]
    unfold openLoop
    rw [hopen]
    rfl
  | cons n rest ih =>
    intro lastErr hfail
    have hn := hfail n (List.mem_cons_self n rest)
    have hrest : ∀ m ∈ rest, openFailure d mode m ≠ none :=
      fun m hm => hfail m (List.mem_cons_of_mem n hm)
    unfold openFailure at hn
    cases hopen2 : d.Open n mode with
    | ok port2 => rw [hopen2] at hn; exact absurd rfl hn
    | error err =>
      simp only [List.cons_append]
      unfold openLoop
      rw [hopen2]
      simp only []
      rw [ih (some err) hrest]
      rfl

/-- The trace of the opener holds `Open` calls only. -/
theorem openLoop_trace (d : Driver) (mode : Mode) (l : List String) :
    ∀ lastErr : Option String,
      ∀ ev ∈ (openLoop d mode l lastErr).2, ∃ n, ev = Event.openAttempt n mode := by
  induction l with
  | nil => intro lastErr ev hev; simp [openLoop] at hev
  | cons n rest ih =>
    intro lastErr ev hev
    unfold openLoop at hev
    cases hopen : d.Open n mode with
    | ok port =>
      rw [hopen] at hev
      simp only [List.mem_singleton] at hev
      exact ⟨n, hev⟩
    | error err =>
      rw [hopen] at hev
      simp only [List.mem_cons] at hev
      rcases hev with h | h
      · exact ⟨n, h⟩
      · exact ih (some err) ev h

/-- The list `buildPortList` returns is never empty: it starts with the primary
port. -/
theorem buildPortList_ne_nil (p : String) (e : List String) : buildPortList p e ≠ [] := by
  intro h
  have hhead : (resolveSpec p e).head? = some p := by
    unfold resolveSpec
    by_cases h1 : p = "COM1" <;> by_cases h2 : p = "COM2" <;>
      simp only [h1, h2, if_true, if_false, List.append_nil, List.singleton_append,
        List.cons_append, List.nil_append] <;> exact appendAbsent_head e _ _
  rw [← buildPortList_eq_resolveSpec, h] at hhead
  simp at hhead

/-- When the list has a last candidate and every candidate fails to open, the
opener returns the open failure of that last candidate, wrapped, after one `Open`
call per candidate. -/
theorem openAvailablePort_all_fail (d : Driver) (tryPorts : List String)
    (cfg : SerialConfig) (last : String) (hlast : tryPorts.getLast? = some last)
    (hfail : ∀ n ∈ tryPorts, openFailure d (modeOf cfg) n ≠ none) :
    ∃ err, openFailure d (modeOf cfg) last = some err
      ∧ openAvailablePort d tryPorts cfg
          = (.error (.noPortAvailable (some err)),
             tryPorts.map (fun n => Event.openAttempt n (modeOf cfg))) := by
  have h := openLoop_all_fail d (modeOf cfg) tryPorts none hfail
  have hmem : last ∈ tryPorts := List.mem_of_getLast?_eq_some hlast
  cases hf : openFailure d (modeOf cfg) last with
  | none => exact absurd hf (hfail last hmem)
  | some err =>
    rw [hlast] at h
    simp only [hf] at h
    exact ⟨err, rfl, h⟩

/-- C8. For every candidate list and every open primitive, `openAvailablePort`
returns the handle and name of the first candidate in list order whose open succeeds
and calls `Open` for no candidate after it; if every candidate's open fails, the
returned error wraps the open failure of the last candidate of the list, after one
`Open` call per candidate.  The list `SendToSerial` passes, the result of
`buildPortList`, always has a last candidate. -/
theorem openAvailablePort_first_success_else_last_failure (d : Driver)
    (tryPorts : List String) (cfg : SerialConfig) :
    (∀ (pre : List String) (name : String) (post : List String) (port : Port),
        tryPorts = pre ++ name :: post →
        (∀ n ∈ pre, openFailure d (modeOf cfg) n ≠ none) →
        d.Open name (modeOf cfg) = .ok port →
        openAvailablePort d tryPorts cfg
          = (.ok (port, name),
             (pre ++ [name]).map (fun n => Event.openAttempt n (modeOf cfg))))
    ∧ (∀ last : String, tryPorts.getLast? = some last →
        (∀ n ∈ tryPorts, openFailure d (modeOf cfg) n ≠ none) →
        ∃ err, openFailure d (modeOf cfg) last = some err
          ∧ openAvailablePort d tryPorts cfg
              = (.error (.noPortAvailable (some err)),
                 tryPorts.map (fun n => Event.openAttempt n (modeOf cfg))))
    ∧ (∀ (primary : String) (available : List String),
        tryPorts = buildPortList primary available →
        (∀ n ∈ tryPorts, openFailure d (modeOf cfg) n ≠ none) →
        WrapsLastFailure d tryPorts cfg) := by
  refine ⟨?_, ?_, ?_⟩
  · intro pre name post port hl hfail hopen
    subst hl
    exact openLoop_first_success d (modeOf cfg) name port post hopen pre none hfail
  · intro last hlast hfail
    exact openAvailablePort_all_fail d tryPorts cfg last hlast hfail
  · intro primary available hl hfail
    have hne : tryPorts ≠ [] := hl ▸ buildPortList_ne_nil primary available
    cases hg : tryPorts.getLast? with
    | none => exact absurd (List.getLast?_eq_none_iff.1 hg) hne
    | some last =>
      obtain ⟨err, herr, hres⟩ := openAvailablePort_all_fail d tryPorts cfg last hg hfail
      refine ⟨err, ?_, ?_⟩
      · rw [hg]; exact herr
      · rw [hres]

/-- Witness for C8: with the candidates "COM1", "COM2", "COM7" on a host where only
"COM2" opens, "COM2" is returned after two `Open` calls; on a host where none of
them opens, the error wraps the failure of "COM7" after three `Open` calls. -/
theorem openAvailablePort_first_success_else_last_failure_witness :
    openAvailablePort (demoDriver "COM2") ["COM1", "COM2", "COM7"] currentConfig
      = (.ok (⟨1⟩, "COM2"),
         [Event.openAttempt "COM1" (modeOf currentConfig),
          Event.openAttempt "COM2" (modeOf currentConfig)])
    ∧ ∃ err, openFailure (demoDriver "COM9") (modeOf currentConfig) "COM7" = some err
        ∧ openAvailablePort (demoDriver "COM9") ["COM1", "COM2", "COM7"] currentConfig
            = (.error (.noPortAvailable (some err)),
               [Event.openAttempt "COM1" (modeOf currentConfig),
                Event.openAttempt "COM2" (modeOf currentConfig),
                Event.openAttempt "COM7" (modeOf currentConfig)]) :=
  ⟨(openAvailablePort_first_success_else_last_failure (demoDriver "COM2")
      ["COM1", "COM2", "COM7"] currentConfig).1 ["COM1"] "COM2" ["COM7"] ⟨1⟩ rfl
      (by decide) rfl,
   (openAvailablePort_first_success_else_last_failure (demoDriver "COM9")
      ["COM1", "COM2", "COM7"] currentConfig).2.1 "COM7" rfl (by decide)⟩

/-! ## Line normalizer: theorems -/

/-- Replacing every carriage return by a newline leaves no carriage return. -/
theorem replaceFrom_cr_free (s : List Char) :
    '\r' ∉ replaceFrom ['\r'] ['\n'] 0 s := by
  induction s with
  | nil => simp [replaceFrom]
  | cons c cs ih =>
    unfold replaceFrom
    by_cases h : c = '\r'
    · subst h
      simp only [List.isPrefixOf, beq_self_eq_true, Bool.and_self, if_true,
        List.length_singleton, Nat.sub_self]
      intro hmem
      simp only [List.singleton_append, List.mem_cons] at hmem
      rcases hmem with hc | hc
      · exact absurd hc (by decide)
      · exact ih hc
    · have hb : ('\r' == c) = false := by
        rw [beq_eq_false_iff_ne]
        exact fun e => h e.symm
      simp only [List.isPrefixOf, hb, Bool.false_and, Bool.false_eq_true, if_false]
      intro hmem
      simp only [List.mem_cons] at hmem
      rcases hmem with hc | hc
      · exact h hc.symm
      · exact ih hc

/-- A segment of a split holds no separator and only characters of the input. -/
theorem splitChars_segment (sep : Char) (s : List Char) :
    ∀ seg ∈ splitChars sep s, sep ∉ seg ∧ ∀ c ∈ seg, c ∈ s := by
  induction s with
  | nil =>
    intro seg hseg
    simp only [splitChars, List.mem_singleton] at hseg
    subst hseg
    simp
  | cons c cs ih =>
    intro seg hseg
    unfold splitChars at hseg
    by_cases hc : c = sep
    · rw [if_pos hc] at hseg
      simp only [List.mem_cons] at hseg
      rcases hseg with h | h
      · subst h; simp
      · obtain ⟨h1, h2⟩ := ih seg h
        exact ⟨h1, fun x hx => List.mem_cons_of_mem c (h2 x hx)⟩
    · rw [if_neg hc] at hseg
      cases hsp : splitChars sep cs with
      | nil =>
        rw [hsp] at hseg
        simp only [List.mem_singleton] at hseg
        subst hseg
        refine ⟨?_, ?_⟩
        · simp only [List.mem_singleton]
          exact fun e => hc e.symm
        · intro x hx
          simp only [List.mem_singleton] at hx
          subst hx
          exact List.mem_cons_self _ _
      | cons seg0 segs =>
        rw [hsp] at hseg ih
        simp only [List.mem_cons] at hseg
        rcases hseg with h | h
        · subst h
          obtain ⟨h1, h2⟩ := ih seg0 (List.mem_cons_self _ _)
          refine ⟨?_, ?_⟩
          · simp only [List.mem_cons, not_or]
            exact ⟨fun e => hc e.symm, h1⟩
          · intro x hx
            simp only [List.mem_cons] at hx
            rcases hx with hx | hx
            · subst hx; exact List.mem_cons_self _ _
            · exact List.mem_cons_of_mem c (h2 x hx)
        · obtain ⟨h1, h2⟩ := ih seg (List.mem_cons_of_mem _ h)
          exact ⟨h1, fun x hx => List.mem_cons_of_mem c (h2 x hx)⟩

/-- Unfolding of the split at a character that is not the separator. -/
theorem splitChars_cons_ne (sep c : Char) (cs : List Char) (hc : ¬ c = sep) :
    splitChars sep (c :: cs)
      = (match splitChars sep cs with
          | [] => [[c]]
          | seg :: segs => (c :: seg) :: segs) := by
  rw [splitChars, if_neg hc]

/-- Splitting in front of the first separator. -/
theorem splitChars_append_sep (sep : Char) (rest : List Char) (l : List Char)
    (h : sep ∉ l) : splitChars sep (l ++ sep :: rest) = l :: splitChars sep rest := by
  induction l with
  | nil => simp [splitChars]
  | cons c cs ih =>
    simp only [List.mem_cons, not_or] at h
    have hc : ¬ c = sep := fun e => h.1 e.symm
    simp only [List.cons_append]
    rw [splitChars_cons_ne sep c _ hc, ih h.2]

/-- A sequence without separator is its own single segment. -/
theorem splitChars_no_sep (sep : Char) (l : List Char) (h : sep ∉ l) :
    splitChars sep l = [l] := by
  induction l with
  | nil => rfl
  | cons c cs ih =>
    simp only [List.mem_cons, not_or] at h
    have hc : ¬ c = sep := fun e => h.1 e.symm
    rw [splitChars_cons_ne sep c _ hc, ih h.2]

/-- Splitting undoes joining, for a non-empty list of separator-free elements. -/
theorem splitChars_joinChars (sep : Char) (ls : List (List Char)) (hne : ls ≠ [])
    (h : ∀ l ∈ ls, sep ∉ l) : splitChars sep (joinChars [sep] ls) = ls := by
  induction ls with
  | nil => exact absurd rfl hne
  | cons l rest ih =>
    cases rest with
    | nil =>
      simp only [joinChars]
      exact splitChars_no_sep sep l (h l (List.mem_cons_self _ _))
    | cons l2 rest2 =>
      simp only [joinChars, List.append_assoc, List.singleton_append]
      rw [splitChars_append_sep sep _ l (h l (List.mem_cons_self _ _))]
      rw [ih (List.cons_ne_nil _ _) (fun x hx => h x (List.mem_cons_of_mem _ hx))]

/-- A character of a join comes from the separator or from an element. -/
theorem mem_joinChars (sep : List Char) (c : Char) (ls : List (List Char))
    (h : c ∈ joinChars sep ls) : c ∈ sep ∨ ∃ l ∈ ls, c ∈ l := by
  induction ls with
  | nil => simp [joinChars] at h
  | cons l rest ih =>
    cases rest with
    | nil =>
      simp only [joinChars] at h
      exact Or.inr ⟨l, List.mem_cons_self _ _, h⟩
    | cons l2 rest2 =>
      simp only [joinChars, List.mem_append] at h
      rcases h with (h | h) | h
      · exact Or.inr ⟨l, List.mem_cons_self _ _, h⟩
      · exact Or.inl h
      · rcases ih h with h2 | ⟨x, hx, hcx⟩
        · exact Or.inl h2
        · exact Or.inr ⟨x, List.mem_cons_of_mem _ hx, hcx⟩

/-- The output is the surviving lines joined by carriage returns. -/
theorem normalizeLineEndings_eq_join (program : String) :
    normalizeLineEndings program = Join (survivingLines program) "\r" := rfl

/-- A surviving line is not blank and holds neither a carriage return nor a newline. -/
theorem survivingLines_spec (program : String) :
    ∀ line ∈ survivingLines program,
      ¬ Blank line ∧ '\r' ∉ line.data ∧ '\n' ∉ line.data := by
  intro line hline
  unfold survivingLines at hline
  rw [List.mem_filter] at hline
  obtain ⟨hmem, hkeep⟩ := hline
  refine ⟨?_, ?_⟩
  · simpa [Blank] using hkeep
  · unfold Split at hmem
    rw [List.mem_map] at hmem
    obtain ⟨seg, hseg, rfl⟩ := hmem
    obtain ⟨h1, h2⟩ := splitChars_segment '\n' _ seg hseg
    refine ⟨?_, h1⟩
    intro hcr
    have hin := h2 '\r' hcr
    have hdata : (ReplaceAll (ReplaceAll program "\r\n" "\n") "\r" "\n").data
        = replaceFrom ['\r'] ['\n'] 0 (ReplaceAll program "\r\n" "\n").data := rfl
    rw [hdata] at hin
    exact replaceFrom_cr_free _ hin

/-- Unfolding of the split at a separator. -/
theorem splitChars_cons_eq (sep c : Char) (cs : List Char) (hc : c = sep) :
    splitChars sep (c :: cs) = [] :: splitChars sep cs := by
  rw [splitChars, if_pos hc]

/-- The segments after a separator are the last segments of the whole split. -/
theorem splitChars_suffix (sep : Char) (rest : List Char) (a : List Char) :
    ∃ pre : List (List Char), pre ≠ [] ∧
      splitChars sep (a ++ sep :: rest) = pre ++ splitChars sep rest := by
  induction a with
  | nil =>
    refine ⟨[[]], by simp, ?_⟩
    rw [List.nil_append, splitChars_cons_eq sep sep rest rfl]
    rfl
  | cons c cs ih =>
    obtain ⟨pre, hne, h⟩ := ih
    rw [List.cons_append]
    by_cases hc : c = sep
    · refine ⟨[] :: pre, by simp, ?_⟩
      rw [splitChars_cons_eq sep c _ hc, h]
      rfl
    · cases pre with
      | nil => exact absurd rfl hne
      | cons p0 ps =>
        refine ⟨(c :: p0) :: ps, by simp, ?_⟩
        rw [splitChars_cons_ne sep c _ hc, h]
        rfl

/-- When no segment of a split is empty, the separator stands neither at the start
nor at the end of the sequence, nor twice in a row. -/
theorem splitChars_separator_positions (sep : Char) (s : List Char)
    (h : ∀ seg ∈ splitChars sep s, seg ≠ []) :
    s.head? ≠ some sep ∧ s.getLast? ≠ some sep ∧ ¬ ([sep, sep] <:+: s) := by
  refine ⟨?_, ?_, ?_⟩
  · intro hh
    obtain ⟨ys, rfl⟩ := List.head?_eq_some_iff.1 hh
    refine h [] ?_ rfl
    rw [splitChars_cons_eq sep sep ys rfl]
    exact List.mem_cons_self _ _
  · intro hh
    obtain ⟨ys, rfl⟩ := List.getLast?_eq_some_iff.1 hh
    obtain ⟨pre, _, hsp⟩ := splitChars_suffix sep [] ys
    refine h [] ?_ rfl
    rw [hsp]
    simp [splitChars]
  · rintro ⟨a, b, rfl⟩
    obtain ⟨pre, _, hsp⟩ := splitChars_suffix sep (sep :: b) a
    refine h [] ?_ rfl
    have hs : a ++ [sep, sep] ++ b = a ++ sep :: (sep :: b) := by simp
    rw [hs, hsp, splitChars_cons_eq sep sep b rfl]
    simp

/-- The output is empty exactly when no line survives; otherwise Go's split of the
output on the carriage return gives back the surviving lines. -/
theorem normalizeLineEndings_split (program : String) :
    (survivingLines program = [] → normalizeLineEndings program = "")
    ∧ (survivingLines program ≠ [] →
        normalizeLineEndings program ≠ ""
        ∧ Split (normalizeLineEndings program) '\r' = survivingLines program) := by
  have hspec := survivingLines_spec program
  have hdata : (normalizeLineEndings program).data
      = joinChars ['\r'] ((survivingLines program).map String.data) := rfl
  constructor
  · intro hk
    rw [normalizeLineEndings_eq_join, hk]
    rfl
  · intro hk
    have hsplit : Split (normalizeLineEndings program) '\r' = survivingLines program := by
      unfold Split
      rw [hdata, splitChars_joinChars]
      · rw [List.map_map]
        exact List.map_id _
      · simpa using hk
      · intro l hl
        rw [List.mem_map] at hl
        obtain ⟨line, hline, rfl⟩ := hl
        exact (hspec line hline).2.1
    refine ⟨?_, hsplit⟩
    intro hempty
    rw [hempty] at hsplit
    have hmem : ("" : String) ∈ survivingLines program := by
      rw [← hsplit]
      decide
    exact (hspec "" hmem).1 (by decide)

/-- C1. For every input string the output of `normalizeLineEndings` holds no newline,
and no line of the output split on the carriage return is blank: the lines of the
output are exactly the surviving non-blank lines of the program (none when every line
is blank, the output then being empty), joined by single carriage returns, so the
carriage return occurs only as a separator between them, never at the start, at the
end, or twice in a row. -/
theorem normalizeLineEndings_separators (program : String) :
    '\n' ∉ (normalizeLineEndings program).data
    ∧ (∀ seg ∈ outputLines (normalizeLineEndings program), ¬ Blank seg)
    ∧ outputLines (normalizeLineEndings program) = survivingLines program
    ∧ normalizeLineEndings program = Join (survivingLines program) "\r"
    ∧ (∀ line ∈ survivingLines program, '\r' ∉ line.data ∧ '\n' ∉ line.data)
    ∧ (normalizeLineEndings program).data.head? ≠ some '\r'
    ∧ (normalizeLineEndings program).data.getLast? ≠ some '\r'
    ∧ ¬ (['\r', '\r'] <:+: (normalizeLineEndings program).data)
    ∧ (normalizeLineEndings program = "" ↔ survivingLines program = [])
    ∧ (normalizeLineEndings program ≠ "" →
        NoBlankSegment (normalizeLineEndings program)) := by
  have hspec := survivingLines_spec program
  have hdata : (normalizeLineEndings program).data
      = joinChars ['\r'] ((survivingLines program).map String.data) := rfl
  obtain ⟨hnil, hcons⟩ := normalizeLineEndings_split program
  have hlines : outputLines (normalizeLineEndings program) = survivingLines program := by
    unfold outputLines
    by_cases hk : survivingLines program = []
    · rw [if_pos (hnil hk), hk]
    · rw [if_neg (hcons hk).1, (hcons hk).2]
  have hiff : normalizeLineEndings program = "" ↔ survivingLines program = [] := by
    constructor
    · intro hempty
      by_contra hk
      exact (hcons hk).1 hempty
    · exact hnil
  have hgo : normalizeLineEndings program ≠ "" →
      NoBlankSegment (normalizeLineEndings program) := by
    intro hne seg hseg
    have hk : survivingLines program ≠ [] := fun hk => hne (hnil hk)
    rw [(hcons hk).2] at hseg
    exact (hspec seg hseg).1
  have hpos : (normalizeLineEndings program).data.head? ≠ some '\r'
      ∧ (normalizeLineEndings program).data.getLast? ≠ some '\r'
      ∧ ¬ (['\r', '\r'] <:+: (normalizeLineEndings program).data) := by
    by_cases hk : survivingLines program = []
    · have hempty : (normalizeLineEndings program).data = [] := by
        rw [hnil hk]
      rw [hempty]
      refine ⟨by simp, by simp, ?_⟩
      intro hin
      have := List.eq_nil_of_infix_nil hin
      simp at this
    · apply splitChars_separator_positions
      intro seg hseg hsegnil
      have hmem : String.mk seg ∈ Split (normalizeLineEndings program) '\r' := by
        unfold Split
        exact List.mem_map_of_mem String.mk hseg
      rw [(hcons hk).2] at hmem
      subst hsegnil
      exact (hspec _ hmem).1 (by decide)
  refine ⟨?_, ?_, hlines, normalizeLineEndings_eq_join program,
    fun line hline => (hspec line hline).2, hpos.1, hpos.2.1, hpos.2.2, hiff, hgo⟩
  · intro hmem
    rw [hdata] at hmem
    rcases mem_joinChars _ _ _ hmem with h | ⟨l, hl, hc⟩
    · exact absurd h (by decide)
    · rw [List.mem_map] at hl
      obtain ⟨line, hline, rfl⟩ := hl
      exact (hspec line hline).2.2 hc
  · intro seg hseg
    rw [hlines] at hseg
    exact (hspec seg hseg).1

/-- Witness for C1: mixed line endings with blank lines in between give four lines
joined by carriage returns; an all-blank program gives the empty output, which has
no line. -/
theorem normalizeLineEndings_separators_witness :
    normalizeLineEndings "a\r\nb\n\n c \rd\r\r\n \t\n" = "a\rb\r c \rd"
    ∧ outputLines (normalizeLineEndings "a\r\nb\n\n c \rd\r\r\n \t\n")
        = ["a", "b", " c ", "d"]
    ∧ NoBlankSegment (normalizeLineEndings "a\r\nb\n\n c \rd\r\r\n \t\n")
    ∧ normalizeLineEndings "\n\n\r\n" = ""
    ∧ outputLines (normalizeLineEndings "\n\n\r\n") = [] :=
  ⟨by decide,
   (normalizeLineEndings_separators "a\r\nb\n\n c \rd\r\r\n \t\n").2.2.1,
   (normalizeLineEndings_separators "a\r\nb\n\n c \rd\r\r\n \t\n").2.2.2.2.2.2.2.2.2
     (by decide),
   (normalizeLineEndings_separators "\n\n\r\n").2.2.2.2.2.2.2.2.1.2 (by decide),
   (normalizeLineEndings_separators "\n\n\r\n").2.2.1⟩

/-! ## Transport session: theorems -/

/-- The UTF-8 encoding of a string has `len(s)` bytes. -/
theorem utf8Bytes_length (s : String) : (utf8Bytes s).length = s.utf8ByteSize := by
  obtain ⟨l⟩ := s
  show (l.flatMap String.utf8EncodeChar).length = String.utf8ByteSize.go l
  induction l with
  | nil => rfl
  | cons c cs ih =>
    rw [List.flatMap_cons, List.length_append, ih, String.length_utf8EncodeChar]
    simp only [String.utf8ByteSize.go]
    omega

/-- A string of one-byte characters has as many bytes as characters. -/
theorem utf8ByteSize_ascii (s : String) (h : ∀ c ∈ s.data, c.toNat < 128) :
    s.utf8ByteSize = s.length := by
  obtain ⟨l⟩ := s
  show String.utf8ByteSize.go l = l.length
  induction l with
  | nil => rfl
  | cons c cs ih =>
    have hc : c.toNat < 128 := h c (List.mem_cons_self _ _)
    have hsize : c.utf8Size = 1 := by
      unfold Char.utf8Size
      have : c.val ≤ 127 := by
        rw [UInt32.le_def]
        show c.val.toNat ≤ 127
        have : c.toNat = c.val.toNat := rfl
        omega
      simp [this]
    simp only [String.utf8ByteSize.go, List.length_cons, hsize]
    rw [ih (fun x hx => h x (List.mem_cons_of_mem _ hx))]

/-- The calls `sendOnPort` makes hold no `Close`. -/
theorem sendOnPort_no_close (d : Driver) (port : Port) (name program : String) :
    (sendOnPort d port name program).2.filter Event.isClose = [] := by
  unfold sendOnPort
  simp only []
  rcases hW : d.Write port (utf8Bytes (normalizeLineEndings program ++ "\r")) with ⟨n, e⟩
  cases e <;> rfl

/-- The calls of the opener hold neither a `Close` nor a `Write`. -/
theorem openAvailablePort_no_close_no_write (d : Driver) (l : List String)
    (cfg : SerialConfig) :
    (openAvailablePort d l cfg).2.filter Event.isClose = []
    ∧ (openAvailablePort d l cfg).2.filter Event.isWrite = [] := by
  have h := openLoop_trace d (modeOf cfg) l none
  constructor <;>
  · rw [List.filter_eq_nil_iff]
    intro ev hev
    obtain ⟨n, rfl⟩ := h ev hev
    simp [Event.isClose, Event.isWrite]

/-- Function `SendToSerial` once the opener has returned a port. -/
theorem SendToSerial_opened (d : Driver) (store : SerialConfig) (program : String)
    (port : Port) (name : String)
    (hopen : (openAvailablePort d (candidates d store) (GetConfig store)).1
      = .ok (port, name)) :
    SendToSerial d store program
      = ((sendOnPort d port name program).1,
         (openAvailablePort d (candidates d store) (GetConfig store)).2
           ++ (sendOnPort d port name program).2 ++ [Event.close port]) := by
  unfold SendToSerial
  simp only []
  generalize openAvailablePort d (candidates d store) (GetConfig store) = o at hopen
  obtain ⟨r, opens⟩ := o
  simp only at hopen
  subst hopen
  rfl

/-- Function `SendToSerial` once the opener has returned its error. -/
theorem SendToSerial_not_opened (d : Driver) (store : SerialConfig) (program : String)
    (err : OpenError)
    (hopen : (openAvailablePort d (candidates d store) (GetConfig store)).1
      = .error err) :
    SendToSerial d store program
      = (.error (.failedToOpen err),
         (openAvailablePort d (candidates d store) (GetConfig store)).2) := by
  unfold SendToSerial
  simp only []
  generalize openAvailablePort d (candidates d store) (GetConfig store) = o at hopen
  obtain ⟨r, opens⟩ := o
  simp only at hopen
  subst hopen
  rfl

/-- C9 (as stated, refuted). On a host where "COM2" opens and every write is
complete, sending the one-character program "é" succeeds with `length` 2, the byte
length of the program, not its character count 1. -/
theorem SendToSerial_length_counts_bytes :
    (openAvailablePort (demoDriver "COM2") (candidates (demoDriver "COM2") currentConfig)
        (GetConfig currentConfig)).1 = .ok (⟨1⟩, "COM2")
    ∧ (demoDriver "COM2").Write ⟨1⟩ (utf8Bytes (normalizeLineEndings "é" ++ "\r"))
        = (((utf8Bytes (normalizeLineEndings "é" ++ "\r")).length : Int), none)
    ∧ (SendToSerial (demoDriver "COM2") currentConfig "é").1
        = .ok { Result := "sent", Length := 2, SerialPort := "COM2", SerialWritten := 3,
                SerialReply := [] }
    ∧ "é".length = 1
    ∧ ¬ ∃ res, (SendToSerial (demoDriver "COM2") currentConfig "é").1 = .ok res
          ∧ res.Length = ("é".length : Int) := by
  refine ⟨rfl, rfl, rfl, rfl, ?_⟩
  rintro ⟨res, hres, hlen⟩
  have h : (SendToSerial (demoDriver "COM2") currentConfig "é").1
      = .ok { Result := "sent", Length := 2, SerialPort := "COM2", SerialWritten := 3,
              SerialReply := [] } := rfl
  rw [h] at hres
  injection hres with hres
  subst hres
  revert hlen
  decide

/-- C9 (amended). When `SendToSerial` opens a port and the write succeeds in full,
the returned result has `serial_written` equal to the byte length of
`normalizeLineEndings program` followed by one carriage return, and `length` equal to
the byte length of the original program, which is its character count when every
character of the program is a one-byte character. -/
theorem SendToSerial_written_and_length (d : Driver) (store : SerialConfig)
    (program : String) (port : Port) (name : String)
    (hopen : (openAvailablePort d (candidates d store) (GetConfig store)).1
      = .ok (port, name))
    (hwrite : d.Write port (utf8Bytes (normalizeLineEndings program ++ "\r"))
      = (((utf8Bytes (normalizeLineEndings program ++ "\r")).length : Int), none)) :
    ∃ res, (SendToSerial d store program).1 = .ok res
      ∧ res.SerialWritten = ((normalizeLineEndings program ++ "\r").utf8ByteSize : Int)
      ∧ res.Length = (program.utf8ByteSize : Int)
      ∧ ((∀ c ∈ program.data, c.toNat < 128) → res.Length = (program.length : Int))
      ∧ res.SerialPort = name := by
  rw [SendToSerial_opened d store program port name hopen]
  unfold sendOnPort
  simp only []
  rw [hwrite]
  refine ⟨_, rfl, ?_, rfl, ?_, rfl⟩
  · simp only [utf8Bytes_length]
  · intro hascii
    simp only [utf8ByteSize_ascii program hascii]

/-- Witness for C9 (amended): the two-line program "é\nb" on a host where "COM2"
opens is written as 5 bytes, and its reported length is 4. -/
theorem SendToSerial_written_and_length_witness :
    ∃ res, (SendToSerial (demoDriver "COM2") currentConfig "é\nb").1 = .ok res
      ∧ res.SerialWritten = ((normalizeLineEndings "é\nb" ++ "\r").utf8ByteSize : Int)
      ∧ res.Length = (("é\nb" : String).utf8ByteSize : Int)
      ∧ ((∀ c ∈ ("é\nb" : String).data, c.toNat < 128)
          → res.Length = (("é\nb" : String).length : Int))
      ∧ res.SerialPort = "COM2" :=
  SendToSerial_written_and_length (demoDriver "COM2") currentConfig "é\nb" ⟨1⟩ "COM2"
    rfl rfl

/-- C10. In every run of `SendToSerial` in which a port was opened, the trace holds
exactly one `Close`, of that port, as its last call: a failed write returns the write
error, a complete run returns a result, and both end with the `Close`.  When no port
could be opened the call returns the open error and the trace holds no `Write` and no
`Close`. -/
theorem SendToSerial_closes_exactly_once (d : Driver) (store : SerialConfig)
    (program : String) :
    (∀ (port : Port) (name : String),
        (openAvailablePort d (candidates d store) (GetConfig store)).1 = .ok (port, name) →
        (SendToSerial d store program).2.filter Event.isClose = [Event.close port]
        ∧ (SendToSerial d store program).2.getLast? = some (Event.close port)
        ∧ (∀ err, (d.Write port (utf8Bytes (normalizeLineEndings program ++ "\r"))).2
              = some err →
            (SendToSerial d store program).1 = .error (.failedToWrite err))
        ∧ ((d.Write port (utf8Bytes (normalizeLineEndings program ++ "\r"))).2 = none →
            ∃ res, (SendToSerial d store program).1 = .ok res))
    ∧ (∀ err : OpenError,
        (openAvailablePort d (candidates d store) (GetConfig store)).1 = .error err →
        (SendToSerial d store program).1 = .error (.failedToOpen err)
        ∧ (SendToSerial d store program).2.filter Event.isWrite = []
        ∧ (SendToSerial d store program).2.filter Event.isClose = []) := by
  constructor
  · intro port name hopen
    rw [SendToSerial_opened d store program port name hopen]
    refine ⟨?_, ?_, ?_, ?_⟩
    · simp only [List.filter_append,
        (openAvailablePort_no_close_no_write d _ _).1, sendOnPort_no_close]
      rfl
    · simp
    · intro err hW
      unfold sendOnPort
      simp only []
      rcases hWr : d.Write port (utf8Bytes (normalizeLineEndings program ++ "\r"))
        with ⟨n, e⟩
      rw [hWr] at hW
      simp only at hW
      subst hW
      rfl
    · intro hW
      unfold sendOnPort
      simp only []
      rcases hWr : d.Write port (utf8Bytes (normalizeLineEndings program ++ "\r"))
        with ⟨n, e⟩
      rw [hWr] at hW
      simp only at hW
      subst hW
      exact ⟨_, rfl⟩
  · intro err hopen
    rw [SendToSerial_not_opened d store program err hopen]
    exact ⟨rfl, (openAvailablePort_no_close_no_write d _ _).2,
      (openAvailablePort_no_close_no_write d _ _).1⟩

/-- Witness for C10: on a host where "COM2" opens, the trace of a send ends with the
one `Close` of the opened port. -/
theorem SendToSerial_closes_exactly_once_witness :
    (SendToSerial (demoDriver "COM2") currentConfig "00 rd 3").2.filter Event.isClose
        = [Event.close ⟨1⟩]
    ∧ (SendToSerial (demoDriver "COM2") currentConfig "00 rd 3").2.getLast?
        = some (Event.close ⟨1⟩) :=
  ⟨((SendToSerial_closes_exactly_once (demoDriver "COM2") currentConfig "00 rd 3").1
      ⟨1⟩ "COM2" rfl).1,
   ((SendToSerial_closes_exactly_once (demoDriver "COM2") currentConfig "00 rd 3").1
      ⟨1⟩ "COM2" rfl).2.1⟩

end Backend
